import Mathlib

/-!
Verification of the git multi-repo synchronization engine of this
repository (class `GitWorkTree` in `python/qisrc/worktree.py`).

The embedding models the mutable state of a `GitWorkTree` explicitly:
the registered worktree projects (`worktree.projects`), a flat view of
the on-disk directory tree keyed by project source path, the parsed
`.qi/git.xml` document (`self._root_xml`), and the in-memory list
`self.git_projects`.  Subprocess-backed git operations (clone
transaction, `git rev-parse`, `os.rename`) are fallible external
effects; their outcomes enter the model as explicit oracle parameters,
while every piece of control flow and state manipulation is translated
from the Python source.  Collaborator classes that are not part of the
source tree (`qisrc.project.GitProject`, `qisrc.groups`,
`qisys.worktree`, `qisys.qixml`) are modelled from the specification;
each such definition is marked `Modelled from the spec:`.
-/

namespace QiSrc

/-- A configured git remote of a project: a `name` and a `url`
(spec §3, `Remote`; used by `GitWorkTree.find_repo`). -/
structure Remote where
  name : String
  url : String
deriving DecidableEq, Repr

/-- Modelled from the spec: `qisrc.project.GitProject` is not under
`src/`; per spec §3 a GitProject is `{src, path, remotes, default_branch}`.
The worktree root is a fixed prefix of every path, so the model keys
everything by `src` and omits the redundant absolute `path`. -/
structure GitProject where
  src : String
  remotes : List Remote
  default_branch : Option String
deriving DecidableEq, Repr

/-- Modelled from the spec: the project name used by group filtering
(`git_project.name` in `get_git_projects`) is the last component of the
source path. -/
def basename (s : String) : String :=
  (s.splitOn "/").getLastD s

/-- Modelled from the spec: `GitProject.name`, derived from `src`. -/
def GitProject.name (g : GitProject) : String :=
  basename g.src

/-- On-disk state of one directory, at the granularity the source
inspects it: `os.path.exists`, `qisrc.git.is_git` (a git checkout),
`git.is_valid() and git.is_empty()` (a valid but empty checkout). -/
inductive Dir
  | absent
  | plainDir
  | emptyGit
  | fullGit
deriving DecidableEq, Repr

/-- Whether the directory exists on disk (`os.path.exists`). -/
def Dir.onDisk : Dir → Bool
  | .absent => false
  | _ => true

/-- Modelled from the spec: `qisrc.git.is_git`, true for any git
checkout (empty or not). -/
def Dir.isGit : Dir → Bool
  | .emptyGit => true
  | .fullGit => true
  | _ => false

/-- Flat view of the on-disk worktree: an association list from source
path to directory state; paths not listed are absent. -/
abbrev Fs := List (String × Dir)

/-- Directory state at a path. -/
def fsGet (fs : Fs) (p : String) : Dir :=
  match fs.find? (fun e => e.1 == p) with
  | some e => e.2
  | none => .absent

/-- Update the directory state at a path: replace the binding when the
path is listed, append it otherwise. -/
def fsSet : Fs → String → Dir → Fs
  | [], p, d => [(p, d)]
  | e :: rest, p, d =>
    if e.1 == p then (p, d) :: rest else e :: fsSet rest p d

/-- One `<project>` element of the `.qi/git.xml` document, as structured
data: the `src` key plus the persisted remotes and default branch
(spec §6: one element per git-bound project, keyed by `src`). -/
structure ProjectElem where
  src : String
  remotes : List Remote
  default_branch : Option String
deriving DecidableEq, Repr

/-- The mutable state of a `GitWorkTree`: the registered worktree
projects in registration order (`worktree.projects`, by `src`), the
on-disk tree, the parsed `.qi/git.xml` root element
(`self._root_xml`), and the in-memory `self.git_projects` list. -/
structure GitWorkTree where
  projects : List String
  fs : Fs
  root_xml : List ProjectElem
  git_projects : List GitProject
deriving DecidableEq, Repr

/-- Modelled from the spec: `qisys.worktree.normalize_path`; the spec
treats `src` as the already-normalized worktree-relative path, so on
such inputs normalization is the identity. -/
def normalize_path (p : String) : String := p

/-- `GitWorkTree._get_elem`: first `<project>` element whose `src`
attribute equals `src`. -/
def _get_elem (xml : List ProjectElem) (src : String) : Option ProjectElem :=
  xml.find? (fun e => e.src == src)

/-- `GitWorkTree._set_elem`: remove every element with this `src`, then
append the new element. -/
def _set_elem (xml : List ProjectElem) (src : String) (e : ProjectElem) : List ProjectElem :=
  (xml.filter (fun x => !(x.src == src))) ++ [e]

/-- Modelled from the spec: `GitProject.load_xml` reads the persisted
remotes and default branch from the project's element (spec §3,
persistence of `GitProject`). -/
def GitProject.load_xml (g : GitProject) (e : ProjectElem) : GitProject :=
  { g with remotes := e.remotes, default_branch := e.default_branch }

/-- Modelled from the spec: `GitProject.dump_xml` serializes the
project's `src`, remotes, and default branch into its element. -/
def GitProject.dump_xml (g : GitProject) : ProjectElem :=
  { src := g.src, remotes := g.remotes, default_branch := g.default_branch }

/-- `GitWorkTree.save_project_config`: replace-or-append the project's
element (keyed by its current `src`) in the xml document, then rewrite
the `.qi/git.xml` file wholesale. -/
def save_project_config (st : GitWorkTree) (p : GitProject) : GitWorkTree :=
  { st with root_xml := _set_elem st.root_xml p.src p.dump_xml }

/-- Modelled from the spec: serialization of one remote by
`qisys.qixml.write` — a deterministic rendering of its attributes. -/
def remoteToString (r : Remote) : String :=
  "<remote name=" ++ r.name ++ " url=" ++ r.url ++ " />"

/-- Modelled from the spec: serialization of one `<project>` element. -/
def elemToString (e : ProjectElem) : String :=
  "<project src=" ++ e.src
    ++ (match e.default_branch with
        | some b => " branch=" ++ b
        | none => "")
    ++ ">" ++ String.join (e.remotes.map remoteToString) ++ "</project>"

/-- Modelled from the spec: `qisys.qixml.write` rewrites the whole
document on every persist (spec §6), producing a string determined by
the element list. -/
def writeGitXml (xml : List ProjectElem) : String :=
  "<git>" ++ String.join (xml.map elemToString) ++ "</git>"

/-- Byte contents of the `.qi/git.xml` file for a worktree state. -/
def git_xml_contents (st : GitWorkTree) : String :=
  writeGitXml st.root_xml

/-- One step of `GitWorkTree.load_git_projects`: a fresh `GitProject`
for a registered source, refreshed by `load_xml` from its `<project>`
element when one is present. -/
def loaded_project (xml : List ProjectElem) (src : String) : GitProject :=
  let base : GitProject := { src := src, remotes := [], default_branch := none }
  match _get_elem xml src with
  | some e => base.load_xml e
  | none => base

/-- Filter of `GitWorkTree.load_git_projects`: only checkouts are bound. -/
def load_one (fs : Fs) (xml : List ProjectElem) (src : String) : Option GitProject :=
  if (fsGet fs src).isGit then some (loaded_project xml src)
  else none

/-- `GitWorkTree.load_git_projects`: rebuild `self.git_projects` from
the registered worktree projects and the xml configuration. -/
def load_git_projects (st : GitWorkTree) : GitWorkTree :=
  { st with git_projects := st.projects.filterMap (load_one st.fs st.root_xml) }

/-- `GitWorkTree.get_git_project` (default flags): find a git project by
its normalized source path. -/
def get_git_project? (st : GitWorkTree) (path : String) : Option GitProject :=
  st.git_projects.find? (fun g => g.src == normalize_path path)

/-- Modelled from the spec: `qisys.worktree.add_project` fails with
`PathConflict` when `src` is already registered (spec §4.1); on success
it registers the project and synchronously notifies observers, and
`GitWorkTree.on_project_added` (source, line 152) reruns
`load_git_projects`. -/
def add_project (st : GitWorkTree) (src : String) : Option GitWorkTree :=
  if src ∈ st.projects then none
  else some (load_git_projects { st with projects := st.projects ++ [src] })

/-- Result of `GitWorkTree.get_git_project` with explicit `raises` and
`auto_add` flags: a found project, a silent miss (the Python method
falls through and returns `None`), or a raised exception
(`NoSuchGitProject`, or `PathConflict` out of `add_project`). -/
inductive GetOutcome
  | found (g : GitProject)
  | notFound
  | raisedNoSuchGitProject (src : String)
  | raisedPathConflict
deriving DecidableEq, Repr

/-- `GitWorkTree.get_git_project(path, raises, auto_add)` as a state
transformer: the `auto_add` branch registers the project (triggering a
rebuild through the observer) and retries with default flags; otherwise
a miss either raises `NoSuchGitProject` or returns `None`. -/
def get_git_project_full (st : GitWorkTree) (path : String) (raises auto_add : Bool) :
    GetOutcome × GitWorkTree :=
  match get_git_project? st path with
  | some g => (.found g, st)
  | none =>
    if auto_add then
      match add_project st path with
      | none => (.raisedPathConflict, st)
      | some st1 =>
        match get_git_project? st1 path with
        | some g => (.found g, st1)
        | none => (.notFound, st1)
    else if raises then (.raisedNoSuchGitProject (normalize_path path), st)
    else (.notFound, st)

/-- Modelled from the spec: a manifest-declared `Repo` (spec §3):
project name, destination `src`, ordered candidate clone URLs, and the
default branch. -/
structure Repo where
  project : String
  src : String
  urls : List String
  default_branch : String
deriving DecidableEq, Repr

/-- Modelled from the spec: the clone URL is the first (primary)
candidate URL (spec §3, `urls: first = default/primary`). -/
def Repo.clone_url (r : Repo) : String :=
  r.urls.headD ""

/-- Modelled from the spec: the name under which the primary remote is
added during a clone (spec §4.4, `add-remote(default_remote_name, ...)`). -/
def Repo.default_remote_name (_ : Repo) : String := "origin"

/-- Inner loop of `GitWorkTree.find_repo`: URLs in candidate order, and
for each URL the first configured project one of whose remotes has that
url. -/
def find_repo_aux (gps : List GitProject) : List String → Option GitProject
  | [] => none
  | u :: rest =>
    match gps.find? (fun g => g.remotes.any (fun r => r.url == u)) with
    | some g => some g
    | none => find_repo_aux gps rest

/-- `GitWorkTree.find_repo`: look for a configured project matching any
of the repo's candidate URLs (the Python loop falls through to `None`
when nothing matches). -/
def find_repo (st : GitWorkTree) (repo : Repo) : Option GitProject :=
  find_repo_aux st.git_projects repo.urls

/-- Modelled from the spec: a `Snapshot`'s `sha1s` is an ordered mapping
from `src` to revision identifier (spec §3); assignment replaces the
value of an existing key and appends a fresh key. -/
def setSha : List (String × String) → String → String → List (String × String)
  | [], k, v => [(k, v)]
  | e :: rest, k, v =>
    if e.1 == k then (k, v) :: rest else e :: setSha rest k v

/-- One loop iteration of `GitWorkTree.snapshot`: run
`git rev-parse HEAD` for the project; on a non-zero exit report the
error and skip the project, otherwise record the stripped output under
the project's `src`.  The subprocess outcome is the oracle `revParse`
(path to output, or failure). -/
def snapStep (revParse : String → Option String)
    (acc : List (String × String)) (g : GitProject) : List (String × String) :=
  match revParse g.src with
  | some out => setSha acc g.src out.trim
  | none => acc

/-- `GitWorkTree.snapshot`: capture each configured git project's
current revision, best effort. -/
def snapshot (st : GitWorkTree) (revParse : String → Option String) :
    List (String × String) :=
  st.git_projects.foldl (snapStep revParse) []

/-- `GitWorkTree._clone_missing`: make the directory, then run the git
transaction (init, remote add, fetch, checkout).  The transaction's
verdict is the oracle `transaction_ok`; on failure the directory is left
behind as an initialized-but-empty checkout (debris) and nothing is
recorded; on success the project's configuration is saved and
`git_projects` reloaded. -/
def _clone_missing (st : GitWorkTree) (gp : GitProject) (transaction_ok : Bool) :
    Bool × GitWorkTree :=
  let st1 : GitWorkTree :=
    { st with fs := fsSet st.fs gp.src (if transaction_ok then .fullGit else .emptyGit) }
  if transaction_ok then
    (true, load_git_projects (save_project_config st1 gp))
  else
    (false, st1)

/-- `GitWorkTree.clone_missing`: register the project (`PathConflict`
is modelled as `none`), remove the target directory when it is a valid
empty checkout (debris of a prior aborted clone), then run
`_clone_missing` on a fresh `GitProject`. -/
def clone_missing (st : GitWorkTree) (repo : Repo) (transaction_ok : Bool) :
    Option (Bool × GitWorkTree) :=
  match add_project st repo.src with
  | none => none
  | some st1 =>
    let gp : GitProject := { src := repo.src, remotes := [], default_branch := none }
    let st2 : GitWorkTree :=
      if fsGet st1.fs repo.src == Dir.emptyGit then
        { st1 with fs := fsSet st1.fs repo.src .absent }
      else st1
    some (_clone_missing st2 gp transaction_ok)

/-- Modelled from the spec: the `GroupIndex` (spec §2) as consulted by
`qisrc.groups.get_groups(...).projects(group_name)` — a pure lookup from
a group name to its member project names. -/
abbrev GroupIndex := String → List String

/-- The `git_project_names` dictionary of `get_git_projects`: name to
project, later projects overwriting earlier ones with the same name. -/
def dict_get_name (gps : List GitProject) (pname : String) : Option GitProject :=
  gps.reverse.find? (fun g => g.name == pname)

/-- One iteration of the inner loop of `get_git_projects`: add the
project registered under `pname` to the result set (Python `set.add`:
no duplicates), ignoring names bound to no git project. -/
def add_named (gps : List GitProject) (res : List GitProject) (pname : String) :
    List GitProject :=
  match dict_get_name gps pname with
  | some gp => if gp ∈ res then res else res ++ [gp]
  | none => res

/-- The accumulated (unsorted, deduplicated) result set of
`get_git_projects` over the requested group names. -/
def build_res (gps : List GitProject) (groups : GroupIndex)
    (group_names : List String) : List GitProject :=
  group_names.foldl (fun res gname => (groups gname).foldl (add_named gps) res) []

/-- `GitWorkTree.get_git_projects`: with no groups requested, the raw
project list; otherwise the deduplicated set of the requested groups'
projects, sorted by `src` (`res.sort(key=attrgetter("src"))` — a stable
sort by `src`, modelled by insertion sort which is likewise stable). -/
def get_git_projects (st : GitWorkTree) (groups : GroupIndex)
    (group_names : List String) : List GitProject :=
  if group_names.isEmpty then st.git_projects
  else List.insertionSort (fun a b => a.src ≤ b.src)
    (build_res st.git_projects groups group_names)

/-- Result of `GitWorkTree.move_repo`: the Python method returns `None`
on every path; the distinct exit points are made observable here. -/
inductive MoveResult
  | noProject
  | destExists
  | renameFailed
  | moved
deriving DecidableEq, Repr

/-- Directory part of a relative path (`os.path.dirname`). -/
def dirname (s : String) : String :=
  let parts := s.splitOn "/"
  if parts.length ≤ 1 then "" else String.intercalate "/" parts.dropLast

/-- Modelled from the spec: `qisys.sh.mkdir(..., recursive=True)`
creates the directory when missing and is a no-op when it exists. -/
def mkdirp (fs : Fs) (p : String) : Fs :=
  if p == "" then fs
  else if (fsGet fs p).onDisk then fs
  else fsSet fs p .plainDir

/-- `GitWorkTree.move_repo`: bail out when the repo's `src` is not a
configured project; fail (mutating nothing) when the destination path
exists; otherwise create the parent directory and rename — when the
rename raises (oracle `rename_ok = false`) report and return, and only
after a successful rename update the project's `src` and persist it. -/
def move_repo (st : GitWorkTree) (repoSrc new_src : String) (rename_ok : Bool) :
    MoveResult × GitWorkTree :=
  match get_git_project? st repoSrc with
  | none => (.noProject, st)
  | some project =>
    if (fsGet st.fs new_src).onDisk then (.destExists, st)
    else
      let st1 : GitWorkTree := { st with fs := mkdirp st.fs (dirname new_src) }
      if !rename_ok then (.renameFailed, st1)
      else
        let fs2 := fsSet (fsSet st1.fs new_src (fsGet st1.fs project.src)) project.src .absent
        let st2 : GitWorkTree :=
          { st1 with
            fs := fs2
            git_projects := st1.git_projects.map
              (fun g => if g.src == project.src then { g with src := new_src } else g) }
        (.moved, save_project_config st2 { project with src := new_src })

/-! ## Helper lemmas -/

theorem fsGet_fsSet_self (fs : Fs) (p : String) (d : Dir) :
    fsGet (fsSet fs p d) p = d := by
  induction fs with
  | nil => simp [fsSet, fsGet]
  | cons e rest ih =>
    by_cases h : e.1 = p
    · simp [fsSet, fsGet, h]
    · simp only [fsSet, fsGet]
      rw [if_neg (by simpa using h)]
      simpa [fsGet, h] using ih

theorem fsGet_fsSet_ne (fs : Fs) (p : String) (d : Dir) (q : String) (h : q ≠ p) :
    fsGet (fsSet fs p d) q = fsGet fs q := by
  induction fs with
  | nil => simp [fsSet, fsGet, Ne.symm h]
  | cons e rest ih =>
    by_cases he : e.1 = p
    · simp only [fsSet]
      rw [if_pos (by simpa using he)]
      have h1 : ((p, d).1 == q) = false := by simpa using Ne.symm h
      have h2 : (e.1 == q) = false := by rw [he]; simpa using Ne.symm h
      simp [fsGet, List.find?, h1, h2]
    · simp only [fsSet]
      rw [if_neg (by simpa using he)]
      simp only [fsGet, List.find?] at ih ⊢
      cases hq : (e.1 == q) <;> simp [hq, ih]

theorem load_one_src (fs : Fs) (xml : List ProjectElem) (src : String)
    (g : GitProject) (h : load_one fs xml src = some g) : g.src = src := by
  unfold load_one at h
  split at h
  · cases h
    unfold loaded_project
    cases _get_elem xml src <;> rfl
  · cases h

theorem load_one_of_isGit (fs : Fs) (xml : List ProjectElem) (src : String)
    (h : (fsGet fs src).isGit = true) :
    load_one fs xml src = some (loaded_project xml src) := by
  unfold load_one
  rw [if_pos h]

/-! ## C2: moving onto an existing destination mutates nothing -/

/-- C2: when the destination of `move_repo` already exists on disk the
operation fails with `DestinationExists` and the whole state — the
project's `src`, the on-disk tree and the persisted configuration — is
returned unchanged. -/
theorem move_repo_dest_exists (st : GitWorkTree) (repoSrc new_src : String)
    (rename_ok : Bool) (project : GitProject)
    (hget : get_git_project? st repoSrc = some project)
    (hdest : (fsGet st.fs new_src).onDisk = true) :
    move_repo st repoSrc new_src rename_ok = (.destExists, st) := by
  unfold move_repo
  rw [hget]
  simp [hdest]

def gpX : GitProject := { src := "x", remotes := [], default_branch := none }

def stMove : GitWorkTree :=
  { projects := ["x"]
    fs := [("x", Dir.fullGit), ("y", Dir.plainDir)]
    root_xml := []
    git_projects := [gpX] }

/-- Witness for C2 at a concrete worktree: `y` exists on disk, so moving
`x` onto it fails and leaves the state untouched. -/
theorem move_repo_dest_exists_witness :
    get_git_project? stMove "x" = some gpX
    ∧ (fsGet stMove.fs "y").onDisk = true
    ∧ move_repo stMove "x" "y" true = (.destExists, stMove) :=
  ⟨by decide, by decide,
    move_repo_dest_exists stMove "x" "y" true gpX (by decide) (by decide)⟩

/-! ## C10: lookup miss with `auto_add` disabled -/

/-- C10: when no configured git project has the normalized source path
and `auto_add` is disabled, `get_git_project` raises `NoSuchGitProject`
with `raises=True` and silently returns no project with `raises=False`;
in both cases the state is unchanged. -/
theorem get_git_project_no_match (st : GitWorkTree) (path : String)
    (h : ∀ g ∈ st.git_projects, g.src ≠ normalize_path path) :
    get_git_project_full st path true false
      = (.raisedNoSuchGitProject (normalize_path path), st)
    ∧ get_git_project_full st path false false = (.notFound, st) := by
  have hfind : get_git_project? st path = none := by
    unfold get_git_project?
    apply List.find?_eq_none.mpr
    intro g hg
    simpa using h g hg
  constructor <;> · unfold get_git_project_full; rw [hfind]; rfl

def stMiss : GitWorkTree :=
  { projects := ["x"]
    fs := [("x", Dir.fullGit)]
    root_xml := []
    git_projects := [gpX] }

/-- Witness for C10 at a concrete worktree with no project under
`other`. -/
theorem get_git_project_no_match_witness :
    (∀ g ∈ stMiss.git_projects, g.src ≠ normalize_path "other")
    ∧ get_git_project_full stMiss "other" true false
        = (.raisedNoSuchGitProject (normalize_path "other"), stMiss)
    ∧ get_git_project_full stMiss "other" false false = (.notFound, stMiss) :=
  ⟨by decide,
    (get_git_project_no_match stMiss "other" (by decide)).1,
    (get_git_project_no_match stMiss "other" (by decide)).2⟩

/-! ## C8: idempotent persistence -/

theorem filter_idem {α : Type} (p : α → Bool) (l : List α) :
    (l.filter p).filter p = l.filter p := by
  induction l with
  | nil => rfl
  | cons a t ih =>
    by_cases h : p a = true
    · simp [List.filter, h, ih]
    · simp [List.filter, h, ih]

theorem _set_elem_idem (xml : List ProjectElem) (s : String) (e : ProjectElem)
    (he : e.src = s) : _set_elem (_set_elem xml s e) s e = _set_elem xml s e := by
  unfold _set_elem
  rw [List.filter_append, filter_idem]
  simp [he]

/-- C8: persisting the same logical `GitProject` twice yields
byte-identical `.qi/git.xml` contents — a second
`save_project_config` of an unchanged project leaves the written file
equal to what the first save produced. -/
theorem save_project_config_idempotent (st : GitWorkTree) (p : GitProject) :
    git_xml_contents (save_project_config (save_project_config st p) p)
      = git_xml_contents (save_project_config st p) := by
  unfold git_xml_contents save_project_config
  exact congrArg writeGitXml (_set_elem_idem st.root_xml p.src p.dump_xml rfl)

/-! ## C4: URL-overlap matching rule of `find_repo` -/

theorem find_repo_aux_some (gps : List GitProject) (urls : List String)
    (g : GitProject) (h : find_repo_aux gps urls = some g) :
    g ∈ gps ∧ ∃ u ∈ urls, ∃ r ∈ g.remotes, r.url = u := by
  induction urls with
  | nil => cases h
  | cons u rest ih =>
    unfold find_repo_aux at h
    cases hf : gps.find? (fun g' => g'.remotes.any (fun r => r.url == u)) with
    | some g' =>
      rw [hf] at h
      cases h
      refine ⟨List.mem_of_find?_eq_some hf, u, List.mem_cons_self u rest, ?_⟩
      have hp := List.find?_some hf
      rw [List.any_eq_true] at hp
      obtain ⟨r, hr, hru⟩ := hp
      exact ⟨r, hr, by simpa using hru⟩
    | none =>
      rw [hf] at h
      obtain ⟨hm, u', hu', hmatch⟩ := ih h
      exact ⟨hm, u', List.mem_cons_of_mem u hu', hmatch⟩

theorem find_repo_aux_none (gps : List GitProject) (urls : List String) :
    find_repo_aux gps urls = none ↔
      ∀ g ∈ gps, ∀ u ∈ urls, ∀ r ∈ g.remotes, r.url ≠ u := by
  induction urls with
  | nil => simp [find_repo_aux]
  | cons u rest ih =>
    unfold find_repo_aux
    cases hf : gps.find? (fun g' => g'.remotes.any (fun r => r.url == u)) with
    | some g' =>
      simp only [reduceCtorEq, false_iff]
      intro hall
      have hp := List.find?_some hf
      rw [List.any_eq_true] at hp
      obtain ⟨r, hr, hru⟩ := hp
      exact hall g' (List.mem_of_find?_eq_some hf) u (List.mem_cons_self u rest) r hr
        (by simpa using hru)
    | none =>
      rw [ih]
      constructor
      · intro hall g hg u' hu' r hr
        rcases List.mem_cons.mp hu' with rfl | hu'
        · have := List.find?_eq_none.mp hf g hg
          intro hru
          exact this (by rw [List.any_eq_true]; exact ⟨r, hr, by simpa using hru⟩)
        · exact hall g hg u' hu' r hr
      · intro hall g hg u' hu' r hr
        exact hall g hg u' (List.mem_cons_of_mem u hu') r hr

/-- C4: `find_repo` implements the any-overlap, first-match rule — a
returned project is a configured project one of whose remotes' urls
(not necessarily the first) equals one of the repo's candidate urls,
and the lookup returns not-found (rather than raising) exactly when no
configured project's remotes contain any candidate url. -/
theorem find_repo_spec (st : GitWorkTree) (repo : Repo) :
    (∀ g, find_repo st repo = some g →
      g ∈ st.git_projects ∧ ∃ u ∈ repo.urls, ∃ r ∈ g.remotes, r.url = u)
    ∧ (find_repo st repo = none ↔
        ∀ g ∈ st.git_projects, ∀ u ∈ repo.urls, ∀ r ∈ g.remotes, r.url ≠ u) :=
  ⟨fun g h => find_repo_aux_some st.git_projects repo.urls g h,
    find_repo_aux_none st.git_projects repo.urls⟩

def gpTwoRemotes : GitProject :=
  { src := "lib/foo"
    remotes := [{ name := "origin", url := "urlA" }, { name := "mirror", url := "urlB" }]
    default_branch := some "master" }

def stFind : GitWorkTree :=
  { projects := ["lib/foo"]
    fs := [("lib/foo", Dir.fullGit)]
    root_xml := []
    git_projects := [gpTwoRemotes] }

def repoFind : Repo :=
  { project := "foo", src := "lib/foo", urls := ["urlB"], default_branch := "master" }

/-- Witness for C4: a project whose second configured remote equals the
candidate url is matched, and the match satisfies the overlap rule. -/
theorem find_repo_spec_witness :
    find_repo stFind repoFind = some gpTwoRemotes
    ∧ (gpTwoRemotes ∈ stFind.git_projects
        ∧ ∃ u ∈ repoFind.urls, ∃ r ∈ gpTwoRemotes.remotes, r.url = u) :=
  ⟨by decide, (find_repo_spec stFind repoFind).1 gpTwoRemotes (by decide)⟩

/-! ## C6: snapshot keys come from the project index -/

theorem setSha_keys (m : List (String × String)) (k v : String) (x : String)
    (hx : x ∈ (setSha m k v).map Prod.fst) :
    x ∈ m.map Prod.fst ∨ x = k := by
  induction m with
  | nil =>
    right
    simpa [setSha] using hx
  | cons e rest ih =>
    simp only [setSha] at hx
    by_cases he : e.1 = k
    · rw [if_pos (by simpa using he)] at hx
      simp only [List.map_cons, List.mem_cons] at hx
      rcases hx with rfl | hx
      · exact Or.inr rfl
      · exact Or.inl (by simp [hx])
    · rw [if_neg (by simpa using he)] at hx
      simp only [List.map_cons, List.mem_cons] at hx
      rcases hx with rfl | hx
      · exact Or.inl (by simp)
      · rcases ih hx with h | h
        · exact Or.inl (by simp [h])
        · exact Or.inr h

theorem snapshot_foldl_keys (rev : String → Option String)
    (gps : List GitProject) (acc : List (String × String)) (x : String)
    (hx : x ∈ (gps.foldl (snapStep rev) acc).map Prod.fst) :
    x ∈ acc.map Prod.fst ∨ x ∈ gps.map GitProject.src := by
  induction gps generalizing acc with
  | nil => exact Or.inl (by simpa using hx)
  | cons g tl ih =>
    rw [List.foldl_cons] at hx
    rcases ih (snapStep rev acc g) hx with h | h
    · unfold snapStep at h
      cases hrev : rev g.src with
      | none => rw [hrev] at h; exact Or.inl h
      | some out =>
        rw [hrev] at h
        rcases setSha_keys acc g.src out.trim x h with h' | h'
        · exact Or.inl h'
        · exact Or.inr (by simp [h'])
    · exact Or.inr (by simp [h])

/-- C6: every key of a captured snapshot is the `src` of one of the
configured git projects at capture time. -/
theorem snapshot_keys_subset (st : GitWorkTree) (rev : String → Option String)
    (x : String) (hx : x ∈ (snapshot st rev).map Prod.fst) :
    x ∈ st.git_projects.map GitProject.src := by
  rcases snapshot_foldl_keys rev st.git_projects [] x hx with h | h
  · cases h
  · exact h

/-! ## C5: snapshot capture is per-project best effort -/

theorem setSha_fresh (m : List (String × String)) (k v : String)
    (h : ∀ e ∈ m, e.1 ≠ k) : setSha m k v = m ++ [(k, v)] := by
  induction m with
  | nil => rfl
  | cons e rest ih =>
    have he : (e.1 == k) = false := by
      simpa using h e (List.mem_cons_self e rest)
    simp only [setSha, he, Bool.false_eq_true, if_false, List.cons_append,
      List.cons.injEq, true_and]
    exact ih (fun e' he' => h e' (List.mem_cons_of_mem e he'))

theorem snap_foldl_eq (rev : String → Option String) (gps : List GitProject)
    (acc : List (String × String))
    (hfresh : ∀ g ∈ gps, ∀ e ∈ acc, e.1 ≠ g.src)
    (hnd : (gps.map GitProject.src).Nodup) :
    gps.foldl (snapStep rev) acc
      = acc ++ gps.filterMap
          (fun g => (rev g.src).map (fun out => (g.src, out.trim))) := by
  induction gps generalizing acc with
  | nil => simp
  | cons g tl ih =>
    rw [List.map_cons, List.nodup_cons] at hnd
    obtain ⟨hgs, hnd2⟩ := hnd
    rw [List.foldl_cons, List.filterMap_cons]
    cases hrev : rev g.src with
    | none =>
      have hstep : snapStep rev acc g = acc := by simp [snapStep, hrev]
      rw [hstep]
      simpa using ih acc (fun g' hg' => hfresh g' (List.mem_cons_of_mem g hg')) hnd2
    | some out =>
      have hstep : snapStep rev acc g = acc ++ [(g.src, out.trim)] := by
        simp only [snapStep, hrev]
        exact setSha_fresh acc g.src out.trim
          (fun e he => hfresh g (List.mem_cons_self g tl) e he)
      have hfresh' : ∀ g' ∈ tl, ∀ e ∈ acc ++ [(g.src, out.trim)], e.1 ≠ g'.src := by
        intro g' hg' e he
        rcases List.mem_append.mp he with he | he
        · exact hfresh g' (List.mem_cons_of_mem g hg') e he
        · have : e = (g.src, out.trim) := by simpa using he
          rw [this]
          intro hc
          apply hgs
          have hc' : g.src = g'.src := hc
          rw [hc']
          exact List.mem_map_of_mem GitProject.src hg'
      rw [hstep, ih (acc ++ [(g.src, out.trim)]) hfresh' hnd2]
      simp

theorem snapshot_entries (st : GitWorkTree) (rev : String → Option String)
    (hnd : (st.git_projects.map GitProject.src).Nodup) :
    snapshot st rev
      = st.git_projects.filterMap
          (fun g => (rev g.src).map (fun out => (g.src, out.trim))) := by
  unfold snapshot
  simpa using snap_foldl_eq rev st.git_projects [] (by simp) hnd

theorem filterMap_snap_keys (rev : String → Option String) (gps : List GitProject) :
    (gps.filterMap (fun g => (rev g.src).map (fun out => (g.src, out.trim)))).map Prod.fst
      = (gps.filter (fun g => (rev g.src).isSome)).map GitProject.src := by
  induction gps with
  | nil => rfl
  | cons g tl ih => cases hrev : rev g.src <;> simp [List.filter, hrev, ih]

/-- C5: a snapshot reads every configured project's revision
independently — the keys are exactly the sources of the projects whose
`rev-parse` succeeded (failures are omitted without aborting the
capture), and every successful project is present with its stripped
revision. -/
theorem snapshot_spec (st : GitWorkTree) (rev : String → Option String)
    (hnd : (st.git_projects.map GitProject.src).Nodup) :
    (snapshot st rev).map Prod.fst
      = (st.git_projects.filter (fun g => (rev g.src).isSome)).map GitProject.src
    ∧ ∀ g ∈ st.git_projects, ∀ sha, rev g.src = some sha →
        (g.src, sha.trim) ∈ snapshot st rev := by
  have heq := snapshot_entries st rev hnd
  constructor
  · rw [heq, filterMap_snap_keys]
  · intro g hg sha hsha
    rw [heq]
    exact List.mem_filterMap.mpr ⟨g, hg, by simp [hsha]⟩

def bareGp (s : String) : GitProject :=
  { src := s, remotes := [], default_branch := none }

def stSnap : GitWorkTree :=
  { projects := ["a", "b", "c"]
    fs := [("a", Dir.fullGit), ("b", Dir.fullGit), ("c", Dir.fullGit)]
    root_xml := []
    git_projects := [bareGp "a", bareGp "b", bareGp "c"] }

def revSnap : String → Option String :=
  fun s => if s == "b" then none else some ("sha-" ++ s)

/-- Witness for C5: over three projects of which the middle one fails,
the snapshot holds exactly the other two sources. -/
theorem snapshot_spec_witness :
    (stSnap.git_projects.map GitProject.src).Nodup
    ∧ (snapshot stSnap revSnap).map Prod.fst = ["a", "c"]
    ∧ ((snapshot stSnap revSnap).map Prod.fst
        = (stSnap.git_projects.filter
            (fun g => (revSnap g.src).isSome)).map GitProject.src
      ∧ ∀ g ∈ stSnap.git_projects, ∀ sha, revSnap g.src = some sha →
          (g.src, sha.trim) ∈ snapshot stSnap revSnap) :=
  ⟨by decide, by decide, snapshot_spec stSnap revSnap (by decide)⟩

/-- Witness for C6: a captured key at a concrete worktree is the source
of a configured project. -/
theorem snapshot_keys_subset_witness :
    ("a" ∈ (snapshot stSnap revSnap).map Prod.fst)
    ∧ "a" ∈ stSnap.git_projects.map GitProject.src :=
  ⟨by decide, snapshot_keys_subset stSnap revSnap "a" (by decide)⟩

/-! ## C7: group listing is sorted and duplicate-free -/

theorem add_named_nodup (gps : List GitProject) (res : List GitProject)
    (pname : String) (h : res.Nodup) : (add_named gps res pname).Nodup := by
  unfold add_named
  cases dict_get_name gps pname with
  | none => exact h
  | some gp =>
    show (if gp ∈ res then res else res ++ [gp]).Nodup
    by_cases hmem : gp ∈ res
    · simpa [hmem] using h
    · rw [if_neg hmem]
      simpa [List.nodup_append, h] using hmem

theorem foldl_add_named_nodup (gps : List GitProject) (pnames : List String)
    (res : List GitProject) (h : res.Nodup) :
    (pnames.foldl (add_named gps) res).Nodup := by
  induction pnames generalizing res with
  | nil => exact h
  | cons p tl ih => exact ih (add_named gps res p) (add_named_nodup gps res p h)

theorem build_res_nodup (gps : List GitProject) (groups : GroupIndex)
    (group_names : List String) : (build_res gps groups group_names).Nodup := by
  unfold build_res
  have : ∀ (gnames : List String) (res : List GitProject), res.Nodup →
      (gnames.foldl (fun res gname => (groups gname).foldl (add_named gps) res) res).Nodup := by
    intro gnames
    induction gnames with
    | nil => exact fun res h => h
    | cons gn tl ih =>
      intro res h
      exact ih _ (foldl_add_named_nodup gps (groups gn) res h)
  exact this group_names [] List.nodup_nil

instance : IsTotal GitProject (fun a b => a.src ≤ b.src) :=
  ⟨fun a b => le_total a.src b.src⟩

instance : IsTrans GitProject (fun a b => a.src ≤ b.src) :=
  ⟨fun _ _ _ hab hbc => le_trans hab hbc⟩

/-- C7: for every requested (nonempty) collection of group names —
overlapping groups and projects in several groups included — the result
of `get_git_projects` is sorted by `src` ascending and holds no
duplicate project. -/
theorem get_git_projects_sorted_nodup (st : GitWorkTree) (groups : GroupIndex)
    (group_names : List String) (h : group_names ≠ []) :
    List.Sorted (fun a b : GitProject => a.src ≤ b.src)
      (get_git_projects st groups group_names)
    ∧ (get_git_projects st groups group_names).Nodup := by
  unfold get_git_projects
  rw [if_neg (by simpa using h)]
  constructor
  · exact List.sorted_insertionSort _ _
  · exact (List.perm_insertionSort _ _).symm.nodup
      (build_res_nodup st.git_projects groups group_names)

def stGroups : GitWorkTree :=
  { projects := ["b", "a"]
    fs := [("b", Dir.fullGit), ("a", Dir.fullGit)]
    root_xml := []
    git_projects := [bareGp "b", bareGp "a"] }

def groupsIndex : GroupIndex :=
  fun gname =>
    if gname == "g1" then ["a", "b"]
    else if gname == "g2" then ["a"] else []

/-- Witness for C7: with `g1 -> [a, b]` and `a` also a member of `g2`,
listing both groups yields a sorted, duplicate-free result. -/
theorem get_git_projects_sorted_nodup_witness :
    (["g1", "g2"] : List String) ≠ []
    ∧ (List.Sorted (fun a b : GitProject => a.src ≤ b.src)
        (get_git_projects stGroups groupsIndex ["g1", "g2"])
      ∧ (get_git_projects stGroups groupsIndex ["g1", "g2"]).Nodup) :=
  ⟨by decide,
    get_git_projects_sorted_nodup stGroups groupsIndex ["g1", "g2"] (by decide)⟩

/-! ## C9: persist then reload round-trips a project's metadata -/

theorem _get_elem_set (xml : List ProjectElem) (s : String) (e : ProjectElem)
    (he : e.src = s) : _get_elem (_set_elem xml s e) s = some e := by
  unfold _get_elem _set_elem
  rw [List.find?_append]
  have hnone : (xml.filter (fun x => !(x.src == s))).find? (fun x => x.src == s) = none := by
    apply List.find?_eq_none.mpr
    intro x hx
    have := (List.mem_filter.mp hx).2
    simpa using this
  rw [hnone]
  simp [List.find?, he]

theorem load_lookup (fs : Fs) (xml : List ProjectElem) (projects : List String)
    (s : String) (hmem : s ∈ projects) (hgit : (fsGet fs s).isGit = true) :
    (projects.filterMap (load_one fs xml)).find? (fun g => g.src == s)
      = some (loaded_project xml s) := by
  induction projects with
  | nil => cases hmem
  | cons p tl ih =>
    rw [List.filterMap_cons]
    by_cases hp : p = s
    · subst hp
      rw [load_one_of_isGit fs xml p hgit]
      have hsrc : (loaded_project xml p).src = p :=
        load_one_src fs xml p _ (load_one_of_isGit fs xml p hgit)
      simp [List.find?, hsrc]
    · cases hl : load_one fs xml p with
      | none => exact ih (List.mem_of_ne_of_mem (fun hs => hp hs.symm) hmem)
      | some g =>
        have hgsrc : g.src = p := load_one_src fs xml p g hl
        have hne : (g.src == s) = false := by
          rw [hgsrc]
          simpa using hp
        rw [List.find?_cons_of_neg _ (by simp [hne])]
        exact ih (List.mem_of_ne_of_mem (fun hs => hp hs.symm) hmem)

/-- C9: persisting a project's metadata with `save_project_config` and
rebuilding the index from the configuration (`load_git_projects`)
yields a git project with identical `src`, `remotes` and
`default_branch`. -/
theorem save_then_load_roundtrip (st : GitWorkTree) (p : GitProject)
    (hmem : p.src ∈ st.projects)
    (hgit : (fsGet st.fs p.src).isGit = true) :
    ∃ g, get_git_project? (load_git_projects (save_project_config st p)) p.src = some g
      ∧ g.src = p.src ∧ g.remotes = p.remotes ∧ g.default_branch = p.default_branch := by
  refine ⟨loaded_project (_set_elem st.root_xml p.src p.dump_xml) p.src, ?_, ?_⟩
  · unfold get_git_project? load_git_projects save_project_config
    exact load_lookup st.fs _ st.projects p.src hmem hgit
  · unfold loaded_project
    rw [_get_elem_set st.root_xml p.src p.dump_xml rfl]
    exact ⟨rfl, rfl, rfl⟩

def pRound : GitProject :=
  { src := "a"
    remotes := [{ name := "origin", url := "u1" }]
    default_branch := some "dev" }

def stRound : GitWorkTree :=
  { projects := ["a"]
    fs := [("a", Dir.fullGit)]
    root_xml := [{ src := "a", remotes := [], default_branch := some "old" }]
    git_projects := [] }

/-- Witness for C9 at a concrete worktree: saving `pRound` over a stale
element and reloading recovers its `src`, remotes and default branch. -/
theorem save_then_load_roundtrip_witness :
    pRound.src ∈ stRound.projects
    ∧ ∃ g, get_git_project? (load_git_projects (save_project_config stRound pRound))
          pRound.src = some g
        ∧ g.src = pRound.src ∧ g.remotes = pRound.remotes
        ∧ g.default_branch = pRound.default_branch :=
  ⟨by decide, save_then_load_roundtrip stRound pRound (by decide) (by decide)⟩

/-! ## C3: a failing rename mutates neither the project nor its directory -/

theorem fsGet_mkdirp_preserved (fs : Fs) (p q : String)
    (h : (fsGet fs q).onDisk = true) : fsGet (mkdirp fs p) q = fsGet fs q := by
  unfold mkdirp
  by_cases hp : p = ""
  · rw [if_pos (by simpa using hp)]
  · rw [if_neg (by simpa using hp)]
    by_cases hdisk : (fsGet fs p).onDisk = true
    · rw [if_pos hdisk]
    · rw [if_neg hdisk]
      by_cases hq : q = p
      · exact absurd (hq ▸ h) hdisk
      · exact fsGet_fsSet_ne fs p .plainDir q hq

/-- C3: when the directory rename of `move_repo` raises, the operation
reports `RenameFailed` and leaves the configured project list (hence the
project's `src`), the persisted configuration, and the directory at the
project's source path exactly as they were. -/
theorem move_repo_rename_failure (st : GitWorkTree) (repoSrc new_src : String)
    (project : GitProject)
    (hget : get_git_project? st repoSrc = some project)
    (hdest : (fsGet st.fs new_src).onDisk = false)
    (hdisk : (fsGet st.fs project.src).onDisk = true) :
    (move_repo st repoSrc new_src false).1 = .renameFailed
    ∧ (move_repo st repoSrc new_src false).2.git_projects = st.git_projects
    ∧ (move_repo st repoSrc new_src false).2.root_xml = st.root_xml
    ∧ fsGet (move_repo st repoSrc new_src false).2.fs project.src
        = fsGet st.fs project.src := by
  unfold move_repo
  rw [hget]
  simp only [hdest, Bool.false_eq_true, if_false, Bool.not_false, if_true, true_and]
  exact fsGet_mkdirp_preserved st.fs (dirname new_src) project.src hdisk

/-- Witness for C3 at a concrete worktree: the rename of `x` to `z`
raises, and `x`'s project entry, configuration and directory survive
untouched. -/
theorem move_repo_rename_failure_witness :
    get_git_project? stMove "x" = some gpX
    ∧ ((move_repo stMove "x" "z" false).1 = .renameFailed
      ∧ (move_repo stMove "x" "z" false).2.git_projects = stMove.git_projects
      ∧ (move_repo stMove "x" "z" false).2.root_xml = stMove.root_xml
      ∧ fsGet (move_repo stMove "x" "z" false).2.fs gpX.src
          = fsGet stMove.fs gpX.src) :=
  ⟨by decide,
    move_repo_rename_failure stMove "x" "z" gpX (by decide) (by decide) (by decide)⟩

/-! ## C1: a failed clone and the git-project index -/

theorem git_projects_if (c : Prop) [Decidable c] (a b : GitWorkTree) :
    (if c then a else b).git_projects = if c then a.git_projects else b.git_projects := by
  split <;> rfl

/-- C1 (amended): when the clone transaction of `clone_missing` fails
and the destination path was not already a git checkout when the
project was registered, a subsequent `get_git_project(repo.src)` lookup
returns not-found — the failed attempt is recorded neither in the
index nor in the configuration, even though the registered worktree
project and on-disk debris remain. -/
theorem clone_missing_failure_not_recorded (st : GitWorkTree) (repo : Repo)
    (ok : Bool) (st' : GitWorkTree)
    (hgit : (fsGet st.fs repo.src).isGit = false)
    (hres : clone_missing st repo ok = some (false, st')) :
    get_git_project? st' repo.src = none := by
  by_cases hin : repo.src ∈ st.projects
  · unfold clone_missing add_project at hres
    rw [if_pos hin] at hres
    cases hres
  · unfold clone_missing add_project at hres
    rw [if_neg hin] at hres
    dsimp only at hres
    cases ok with
    | true =>
      unfold _clone_missing at hres
      dsimp only at hres
      rw [if_pos rfl] at hres
      injection hres with hres'
      injection hres' with hfalse _
      cases hfalse
    | false =>
      unfold _clone_missing at hres
      dsimp only at hres
      rw [if_neg (by simp)] at hres
      injection hres with hres'
      injection hres' with _ hst
      have hgps : st'.git_projects
          = (st.projects ++ [repo.src]).filterMap (load_one st.fs st.root_xml) := by
        rw [← hst]
        simp only [git_projects_if, ite_self]
        rfl
      unfold get_git_project?
      rw [hgps]
      apply List.find?_eq_none.mpr
      intro g hg
      obtain ⟨s, hs, hload⟩ := List.mem_filterMap.mp hg
      have hgsrc : g.src = s := load_one_src _ _ _ _ hload
      rcases List.mem_append.mp hs with hsl | hsr
      · have hne : g.src ≠ repo.src := by
          intro hc
          exact hin ((hgsrc.symm.trans hc) ▸ hsl)
        simpa [normalize_path] using hne
      · have hsr' : s = repo.src := by simpa using hsr
        subst hsr'
        unfold load_one at hload
        rw [if_neg (by simp [hgit])] at hload
        cases hload

def stClone : GitWorkTree :=
  { projects := []
    fs := [("foo", Dir.emptyGit)]
    root_xml := []
    git_projects := [] }

def repoClone : Repo :=
  { project := "foo", src := "foo", urls := ["url"], default_branch := "master" }

def stCloneAfter : GitWorkTree :=
  { projects := ["foo"]
    fs := [("foo", Dir.emptyGit)]
    root_xml := []
    git_projects := [bareGp "foo"] }

/-- C1 counterexample: with empty-git debris of a prior aborted clone
already on disk at `repo.src`, registering the project reloads the
index (observer callback) and binds the debris as a `GitProject`; the
clone transaction then fails, yet `get_git_project(repo.src)` finds
that project — the claim's unconditional "not-found after failure" is
violated. -/
theorem clone_missing_failure_recorded_counterexample :
    clone_missing stClone repoClone false = some (false, stCloneAfter)
    ∧ get_git_project? stCloneAfter repoClone.src = some (bareGp "foo") :=
  ⟨by decide, by decide⟩

def stCloneClean : GitWorkTree :=
  { projects := [], fs := [], root_xml := [], git_projects := [] }

def repoClean : Repo :=
  { project := "bar", src := "bar", urls := ["url"], default_branch := "master" }

def stCloneCleanAfter : GitWorkTree :=
  { projects := ["bar"]
    fs := [("bar", Dir.emptyGit)]
    root_xml := []
    git_projects := [] }

/-- Witness for C1 (amended) at a concrete worktree: a clone into a
fresh path fails and the lookup stays not-found even though the
registered project and the on-disk debris remain. -/
theorem clone_missing_failure_not_recorded_witness :
    (fsGet stCloneClean.fs repoClean.src).isGit = false
    ∧ clone_missing stCloneClean repoClean false = some (false, stCloneCleanAfter)
    ∧ get_git_project? stCloneCleanAfter repoClean.src = none :=
  ⟨by decide, by decide,
    clone_missing_failure_not_recorded stCloneClean repoClean false stCloneCleanAfter
      (by decide) (by decide)⟩

end QiSrc
